import Mathlib

/-
Verification of the operator-precedence expression evaluator in
src/calculator.py against its specification.

The evaluator is embedded shallowly:
* machine recursion is modelled with an explicit fuel parameter (the Python
  program recurses on the call stack; claims are settled at ample fuel);
* the token source (Python shlex with default settings) is modelled as a
  list of remaining tokens, end of input yielding the empty-string sentinel
  exactly as shlex does in non-POSIX mode, plus ghost counters recording the
  current and maximal pushback depth and the maximal pending-value count;
* Python numbers are modelled as Int (int) and Rat (float, exact instead of
  IEEE; no claim compares float results), bool as Bool, and callability by a
  constructor carrying an Int function (the default interpreter chain never
  produces a callable, the constructor only serves the adjacency dispatch);
* Python exceptions are modelled by Except.
-/

set_option maxRecDepth 40000
set_option maxHeartbeats 2000000

namespace Calc

/-- Failure kinds of the evaluator (Python exceptions). -/
inductive Err where
  | fuelOut : Err
  | valueErr : String → Err
  | interpFail : String → Err
  | mismatch : Option String → String → String → Err
  | typeErr : Err
  | attrErr : Err
  | zeroDiv : Err
  | agg : List Err → Err

/-- Domain values: Python int, float (exact rational model), bool, and a
callable (an Int function; never produced by the default interpreters). -/
inductive Value where
  | vint : Int → Value
  | vnum : ℚ → Value
  | vbool : Bool → Value
  | vfn : (Int → Int) → Value

/-- Is the value callable (a Python callable object)? -/
def Value.isFn : Value → Bool
  | .vfn _ => true
  | _ => false

/-- View a value as a Python int (bool is an int subtype in Python). -/
def intView : Value → Option Int
  | .vint n => some n
  | .vbool b => some (if b then 1 else 0)
  | _ => none

/-- View a value as a rational (Python int/float/bool coercion). -/
def ratView : Value → Option ℚ
  | .vint n => some (mkRat n 1)
  | .vnum q => some q
  | .vbool b => some (mkRat (if b then 1 else 0) 1)
  | .vfn _ => none

/-- Iterated product for Int exponentiation. -/
def intNpow (b : Int) : Nat → Int
  | 0 => 1
  | n+1 => b * intNpow b n

/-- Iterated product on rationals. -/
def ratNpow (q : ℚ) : Nat → ℚ
  | 0 => 1
  | n+1 => Rat.mul q (ratNpow q n)

/-- Integer-exponent power on rationals. -/
def ratZpow (q : ℚ) (e : Int) : ℚ :=
  match e with
  | .ofNat n => ratNpow q n
  | .negSucc n => Rat.inv (ratNpow q (n+1))

/-- operator.add: int+int stays int, otherwise numeric values go to float. -/
def addV (l r : Value) : Except Err Value :=
  match intView l, intView r with
  | some a, some b => .ok (.vint (a + b))
  | _, _ =>
    match ratView l, ratView r with
    | some a, some b => .ok (.vnum (Rat.add a b))
    | _, _ => .error .typeErr

/-- operator.sub. -/
def subV (l r : Value) : Except Err Value :=
  match intView l, intView r with
  | some a, some b => .ok (.vint (a - b))
  | _, _ =>
    match ratView l, ratView r with
    | some a, some b => .ok (.vnum (Rat.sub a b))
    | _, _ => .error .typeErr

/-- operator.mul. -/
def mulV (l r : Value) : Except Err Value :=
  match intView l, intView r with
  | some a, some b => .ok (.vint (a * b))
  | _, _ =>
    match ratView l, ratView r with
    | some a, some b => .ok (.vnum (Rat.mul a b))
    | _, _ => .error .typeErr

/-- operator.truediv: always a float in Python; division by zero raises. -/
def divV (l r : Value) : Except Err Value :=
  match ratView l, ratView r with
  | some a, some b => if b = 0 then .error .zeroDiv else .ok (.vnum (Rat.div a b))
  | _, _ => .error .typeErr

/-- operator.pow: int**nonneg int is int, negative exponent gives float;
0 to a negative power raises. Non-integral exponents are outside the
rational model (no claim exercises them). -/
def powV (l r : Value) : Except Err Value :=
  match intView r with
  | some e =>
    match intView l with
    | some b =>
      if 0 ≤ e then .ok (.vint (intNpow b e.toNat))
      else if b = 0 then .error .zeroDiv
      else .ok (.vnum (ratZpow (mkRat b 1) e))
    | none =>
      match ratView l with
      | some q =>
        if q = 0 then (if e < 0 then .error .zeroDiv else .ok (.vnum (ratZpow q e)))
        else .ok (.vnum (ratZpow q e))
      | none => .error .typeErr
  | none => .error .typeErr

/-- operator.neg. -/
def negV (v : Value) : Except Err Value :=
  match intView v with
  | some a => .ok (.vint (-a))
  | none =>
    match ratView v with
    | some q => .ok (.vnum (Rat.neg q))
    | none => .error .typeErr

/-- operator.pos (+True is 1 in Python). -/
def posV (v : Value) : Except Err Value :=
  match v with
  | .vint n => .ok (.vint n)
  | .vnum q => .ok (.vnum q)
  | .vbool b => .ok (.vint (if b then 1 else 0))
  | .vfn _ => .error .typeErr

/-- Postfix percent: multiply by 0.01 (exact 1/100 in the rational model). -/
def pctV (v : Value) : Except Err Value :=
  match ratView v with
  | some q => .ok (.vnum (Rat.mul q (mkRat 1 100)))
  | none => .error .typeErr

/-- Numeric equality test (Python == compares int/float/bool numerically;
cross-type and function comparisons yield False, identity not modelled). -/
def eqB (l r : Value) : Bool :=
  match ratView l, ratView r with
  | some a, some b => decide (a = b)
  | _, _ => false

/-- operator.eq. -/
def eqV (l r : Value) : Except Err Value := .ok (.vbool (eqB l r))

/-- operator.ne. -/
def neV (l r : Value) : Except Err Value := .ok (.vbool (!eqB l r))

/-- operator.lt: only numeric comparisons are defined. -/
def ltV (l r : Value) : Except Err Value :=
  match ratView l, ratView r with
  | some a, some b => .ok (.vbool (decide (a < b)))
  | _, _ => .error .typeErr

/-- operator.le. -/
def leV (l r : Value) : Except Err Value :=
  match ratView l, ratView r with
  | some a, some b => .ok (.vbool (decide (a ≤ b)))
  | _, _ => .error .typeErr

/-- operator.ge. -/
def geV (l r : Value) : Except Err Value :=
  match ratView l, ratView r with
  | some a, some b => .ok (.vbool (decide (b ≤ a)))
  | _, _ => .error .typeErr

/-- operator.gt. -/
def gtV (l r : Value) : Except Err Value :=
  match ratView l, ratView r with
  | some a, some b => .ok (.vbool (decide (b < a)))
  | _, _ => .error .typeErr

/-- Calling a value: a callable applies its function to an int-like
argument; anything else raises, like calling a Python non-callable. -/
def tryCall (l r : Value) : Except Err Value :=
  match l with
  | .vfn f =>
    match intView r with
    | some i => .ok (.vint (f i))
    | none => .error .typeErr
  | _ => .error .typeErr

/-- src/calculator.py _apply_or_mul: try left(right), and on any exception
fall back to left * right. -/
def apply_or_mul (l r : Value) : Except Err Value :=
  match tryCall l r with
  | .ok v => .ok v
  | .error _ => mulV l r

/-- Default action of an Operator: the identity lambda X: X (arity 1). -/
def idAct : List Value → Except Err Value
  | [v] => .ok v
  | _ => .error .typeErr

/-- Wrap a binary function as an action (a Python lambda of arity 2). -/
def binAct (f : Value → Value → Except Err Value) : List Value → Except Err Value
  | [a, b] => f a b
  | _ => .error .typeErr

/-- Wrap a unary function as an action (a Python lambda of arity 1). -/
def unAct (f : Value → Except Err Value) : List Value → Except Err Value
  | [a] => f a
  | _ => .error .typeErr

/-- Digit-string parser used by the literal interpreters. -/
def parseDigits (l : List Char) : Option Nat :=
  if !l.isEmpty && l.all Char.isDigit then
    some (l.foldl (fun n c => n * 10 + (c.toNat - 48)) 0)
  else none

/-- Python int() on a token: optional sign then digits. -/
def intInterp (t : String) : Option Value :=
  match t.data with
  | '-' :: r => (parseDigits r).map (fun n => .vint (-(n : Int)))
  | '+' :: r => (parseDigits r).map (fun n => .vint (n : Int))
  | l => (parseDigits l).map (fun n => .vint (n : Int))

/-- Split a character list at a single dot; none when several dots occur. -/
def splitDot (l : List Char) : Option (List Char × List Char) :=
  match l.span (· ≠ '.') with
  | (b, []) => some (b, [])
  | (b, _ :: a) => if a.any (· = '.') then none else some (b, a)

/-- Python float() on a token: optional sign, digits with at most one dot
(exponent notation omitted; no claim needs it). -/
def floatInterp (t : String) : Option Value :=
  let core : List Char → Option Value := fun l =>
    match splitDot l with
    | none => none
    | some (b, a) =>
      if (b.all Char.isDigit && a.all Char.isDigit) && !(b.isEmpty && a.isEmpty) then
        some (.vnum (Rat.add (mkRat (b.foldl (fun n c => n * 10 + (c.toNat - 48)) 0) 1)
          (mkRat (a.foldl (fun n c => n * 10 + (c.toNat - 48)) 0) (Nat.pow 10 a.length))))
      else none
  match t.data with
  | '-' :: r => (core r).map (fun v => match v with | .vnum q => .vnum (Rat.neg q) | w => w)
  | '+' :: r => core r
  | l => core l

/-- One continuation step of an Operator: a numeric precedence (recursive
evaluation under that floor), a closing-delimiter token (grouping), or a
direct literal interpreter. -/
inductive Step where
  | sprec : Nat → Step
  | sgroup : String → Step
  | sinterp : (String → Option Value) → Step

/-- An Operator record: trump (binding power, none meaning float inf),
token identity (none is the wildcard), continuation steps, action. -/
structure Oper where
  trump : Option Nat
  token : Option String
  steps : List Step
  action : List Value → Except Err Value

/-- precount = (0,1)[trump < inf]: leaf and prefix forms need no pending
value, finite-trump forms need one. -/
def Oper.precount (o : Oper) : Nat := if o.trump.isNone then 0 else 1

/-- trump < precedence, where a trump of none is infinite. -/
def trumpLtNat : Option Nat → Nat → Bool
  | none, _ => false
  | some k, p => decide (k < p)

/-- Descending comparison on trumps (none is infinite). -/
def trumpGe : Option Nat → Option Nat → Bool
  | none, _ => true
  | some _, none => false
  | some a, some b => decide (b ≤ a)

/-- The default operator list of src/calculator.py, in source order. -/
def opAssign : Oper := ⟨some 510, some "=", [.sprec 500], binAct (fun _ _ => .error .attrErr)⟩

/-- Comparison ==. -/
def opEq : Oper := ⟨some 1090, some "==", [.sprec 1100], binAct eqV⟩

/-- Comparison <=. -/
def opLe : Oper := ⟨some 1090, some "<=", [.sprec 1100], binAct leV⟩

/-- Comparison >=. -/
def opGe : Oper := ⟨some 1090, some ">=", [.sprec 1100], binAct geV⟩

/-- Comparison !=. -/
def opNe : Oper := ⟨some 1090, some "!=", [.sprec 1100], binAct neV⟩

/-- Comparison <. -/
def opLt : Oper := ⟨some 1090, some "<", [.sprec 1100], binAct ltV⟩

/-- Comparison >. -/
def opGt : Oper := ⟨some 1090, some ">", [.sprec 1100], binAct gtV⟩

/-- Additive +. -/
def opAdd : Oper := ⟨some 2090, some "+", [.sprec 2100], binAct addV⟩

/-- Additive binary -. -/
def opSub : Oper := ⟨some 2090, some "-", [.sprec 2100], binAct subV⟩

/-- Multiplicative *. -/
def opMul : Oper := ⟨some 2190, some "*", [.sprec 2200], binAct mulV⟩

/-- Multiplicative /. -/
def opDiv : Oper := ⟨some 2190, some "/", [.sprec 2200], binAct divV⟩

/-- Exponent: trump 2310, right operand evaluated at the looser floor 2300. -/
def opPow : Oper := ⟨some 2310, some "^", [.sprec 2300], binAct powV⟩

/-- Adjacency (wildcard identity): apply or multiply. -/
def opAdj : Oper := ⟨some 2390, none, [.sprec 2400], binAct apply_or_mul⟩

/-- Call-like indexing brackets (operator.getitem; numbers are not
subscriptable, so on this value domain the action raises). -/
def opIndex : Oper := ⟨some 3000, some "[", [.sgroup "]"], binAct (fun _ _ => .error .typeErr)⟩

/-- Postfix percent. -/
def opPct : Oper := ⟨some 2295, some "%", [], unAct pctV⟩

/-- Unary + (infinite trump, evaluates its operand at floor 2305). -/
def opUPlus : Oper := ⟨none, some "+", [.sprec 2305], unAct posV⟩

/-- Unary - (infinite trump, evaluates its operand at floor 2305). -/
def opUMinus : Oper := ⟨none, some "-", [.sprec 2305], unAct negV⟩

/-- Grouping parentheses. -/
def opParen : Oper := ⟨none, some "(", [.sgroup ")"], idAct⟩

/-- Wildcard operator synthesized per literal interpreter. -/
def interpOper (f : String → Option Value) : Oper := ⟨none, none, [.sinterp f], idAct⟩

/-- _default_operators, in source order. -/
def defaultOperators : List Oper :=
  [opAssign, opEq, opLe, opGe, opNe, opLt, opGt, opAdd, opSub, opMul, opDiv,
   opPow, opAdj, opIndex, opPct, opUPlus, opUMinus, opParen]

/-- _default_interpreters: int parse, then float parse. -/
def defaultInterpreters : List (String → Option Value) := [intInterp, floatInterp]

/-- The operator list the Calculator constructor works from: defaults plus a
wildcard operator per interpreter, in extension order. -/
def allOperators : List Oper := defaultOperators ++ defaultInterpreters.map interpOper

/-- Boolean check that consecutive trumps are non-increasing. -/
def chainTrumpB : List Oper → Bool
  | [] => true
  | [_] => true
  | a :: b :: rest => trumpGe a.trump b.trump && chainTrumpB (b :: rest)

/-- Descending-trump order on operators. -/
def trumpRel (a b : Oper) : Prop := trumpGe a.trump b.trump = true

instance : DecidableRel trumpRel := fun a b =>
  inferInstanceAs (Decidable (trumpGe a.trump b.trump = true))

instance : IsTotal Oper trumpRel :=
  ⟨fun a b => by
    obtain ⟨ta, _, _, _⟩ := a
    obtain ⟨tb, _, _, _⟩ := b
    unfold trumpRel
    dsimp only
    rcases ta with _ | x <;> rcases tb with _ | y
    · left; rfl
    · left; rfl
    · right; rfl
    · simp only [trumpGe, decide_eq_true_eq]
      omega⟩

instance : IsTrans Oper trumpRel :=
  ⟨fun a b c hab hbc => by
    obtain ⟨ta, _, _, _⟩ := a
    obtain ⟨tb, _, _, _⟩ := b
    obtain ⟨tc, _, _, _⟩ := c
    unfold trumpRel at hab hbc ⊢
    dsimp only at hab hbc ⊢
    rcases ta with _ | x <;> rcases tb with _ | y <;> rcases tc with _ | z <;>
      simp [trumpGe] at hab hbc ⊢ <;> omega⟩

/-- Stable sort by descending trump, matching Python's stable list.sort
with key -trump (each element is inserted before the first strictly weaker
one, so equal trumps keep their insertion order). -/
def sortDesc : List Oper → List Oper := List.insertionSort trumpRel

/-- One bucket of the operator table: the operators with the given token
identity and precount, in descending-trump order. -/
def bucket (tok : Option String) (n : Nat) : List Oper :=
  sortDesc (allOperators.filter (fun o => o.token == tok && o.precount == n))

/-- Calculator.iter_operators: concrete-token bucket then wildcard bucket. -/
def iterOps (token : String) (n : Nat) : List Oper :=
  bucket (some token) n ++ bucket none n

/-- The token-source state: remaining tokens, plus ghost counters for the
current pushback depth, the maximal pushback depth reached, the largest
pending-value count observed at an evaluator loop head, and the number of
rejected operator candidates (fuel exhaustion also counts as a rejection,
so that a run preserving this counter is exactly a backtracking-free run
with ample fuel). -/
structure St where
  toks : List String
  pb : Nat
  maxPb : Nat
  maxPend : Nat
  rejects : Nat

/-- shlex get_token: next token, or the empty-string sentinel at end of
input; re-reading a pushed-back token lowers the pushback depth. -/
def getToken (s : St) : String × St :=
  match s.toks with
  | [] => ("", s)
  | t :: rest => (t, { s with toks := rest, pb := s.pb - 1 })

/-- shlex push_token: restore a token; ghost counters record the depth. -/
def pushToken (t : String) (s : St) : St :=
  { s with toks := t :: s.toks, pb := s.pb + 1, maxPb := max s.maxPb (s.pb + 1) }

/-- Ghost update recording the pending-value count at a loop head. -/
def markPend (n : Nat) (s : St) : St := { s with maxPend := max s.maxPend n }

/-- Ghost update recording one rejected operator candidate. -/
def bumpRej (s : St) : St := { s with rejects := s.rejects + 1 }

/-- raise Exception(*errs) if len(errs) != 1 else errs[0]. -/
def mkAgg : List Err → Err
  | [e] => e
  | es => .agg es

/-- Outcome of the candidate loop: an operator succeeded, all remaining
candidates were outclassed by the precedence floor, or every candidate
failed. -/
inductive TryOut where
  | succ : Value → TryOut
  | outclassed : TryOut
  | failed : Err → TryOut

/-- The evaluator's mutually recursive components at one fuel level. -/
structure Ev where
  calcAux : St → String → Nat → Except Err (List Value) × String × St
  calcLoop : List Value → String → St → String → Nat → Except Err (List Value) × String × St
  tryOps : List Oper → List Err → List Value → String → St → String → Nat → TryOut × String × St
  procOp : Oper → St → String → List Value → Except Err Value × St
  procGo : Oper → List Step → List Value → St → String → Except Err (List Value) × St

/-- The finally clause and result extraction of Calculator.calculate: push
the final token back, then return the single pending value, or raise when
none is pending. -/
def wrap : Except Err (List Value) × String × St → Except Err Value × St
  | (r, tok, s) =>
    let s2 := pushToken tok s
    match r with
    | .error e => (.error e, s2)
    | .ok vals =>
      match vals with
      | v :: _ => (.ok v, s2)
      | [] => (.error (.valueErr "No operator available"), s2)

/-- Body of Calculator.calculate up to its finally clause: start with an
empty pending list, read a token, run the while loop. -/
def auxBody (F : Ev) : St → String → Nat → Except Err (List Value) × String × St :=
  fun s stop prec =>
    F.calcLoop [] (getToken s).1 (getToken s).2 stop prec

/-- Body of the while loop of Calculator.calculate: stop on the stop token,
otherwise run the candidate loop; on success the pending list becomes the
single produced value and the next token is read. -/
def loopBody (F : Ev) : List Value → String → St → String → Nat → Except Err (List Value) × String × St :=
  fun vals token s stop prec =>
    if token = stop then (.ok vals, token, markPend vals.length s)
    else
      match F.tryOps (iterOps token vals.length) [] vals token (markPend vals.length s) stop prec with
      | (.succ v, _, s2) =>
        F.calcLoop [v] (getToken s2).1 (getToken s2).2 stop prec
      | (.outclassed, tok2, s2) => (.ok vals, tok2, s2)
      | (.failed e, tok2, s2) => (.error e, tok2, s2)

/-- Body of the for loop over candidates: an outclassed candidate finishes
the sub-evaluation; otherwise the trigger token is pushed back for wildcard
identities and the operator is processed; on failure the error is recorded,
the token re-read for wildcard identities, and the next candidate tried. -/
def tryBody (F : Ev) : List Oper → List Err → List Value → String → St → String → Nat → TryOut × String × St :=
  fun ops errs vals token s stop prec =>
    match ops with
    | [] => (.failed (mkAgg errs), token, s)
    | op :: rest =>
      if trumpLtNat op.trump prec then (.outclassed, token, s)
      else
        match F.procOp op (if op.token.isNone then pushToken token s else s) stop vals with
        | (.ok v, s1) => (.succ v, token, s1)
        | (.error e, s1) =>
          F.tryOps rest (errs ++ [e]) vals
            (if op.token.isNone then getToken s1 else (token, s1)).1
            (bumpRej (if op.token.isNone then getToken s1 else (token, s1)).2) stop prec

/-- Operator.process: run the continuation steps on the pending values,
then apply the action. -/
def procOpBody (F : Ev) : Oper → St → String → List Value → Except Err Value × St :=
  fun op s stop vals =>
    match F.procGo op op.steps vals s stop with
    | (.ok args, s1) => (op.action args, s1)
    | (.error e, s1) => (.error e, s1)

/-- The step loop of Operator.process: a delimiter step recursively
evaluates to the delimiter and then consumes and verifies it; an
interpreter step consumes and interprets one raw token, restoring it on
failure; a numeric step recursively evaluates under that floor. -/
def procGoBody (F : Ev) : Oper → List Step → List Value → St → String → Except Err (List Value) × St :=
  fun op steps args s stop =>
    match steps with
    | [] => (.ok args, s)
    | step :: rest =>
      match step with
      | .sgroup delim =>
        match wrap (F.calcAux s delim 0) with
        | (.ok v, s1) =>
          if (getToken s1).1 = delim then F.procGo op rest (args ++ [v]) (getToken s1).2 stop
          else (.error (.mismatch op.token (getToken s1).1 delim),
            pushToken (getToken s1).1 (getToken s1).2)
        | (.error e, s1) => (.error e, s1)
      | .sinterp f =>
        match f (getToken s).1 with
        | some v => F.procGo op rest (args ++ [v]) (getToken s).2 stop
        | none => (.error (.interpFail (getToken s).1), pushToken (getToken s).1 (getToken s).2)
      | .sprec pr =>
        match wrap (F.calcAux s stop pr) with
        | (.ok v, s1) => F.procGo op rest (args ++ [v]) s1 stop
        | (.error e, s1) => (.error e, s1)

/-- The fuel-exhausted level: every component fails (and records the
failure in the ghost rejection counter, so that counter-preserving runs
never hit this level). -/
def evZero : Ev :=
  ⟨fun s _ _ => (.error .fuelOut, "", bumpRej s),
   fun _ t s _ _ => (.error .fuelOut, t, bumpRej s),
   fun _ _ _ t s _ _ => (.failed .fuelOut, t, bumpRej s),
   fun _ s _ _ => (.error .fuelOut, bumpRej s),
   fun _ _ _ s _ => (.error .fuelOut, bumpRej s)⟩

/-- The evaluator at each fuel level; every recursive edge goes to the next
lower level, so the tower is plain structural recursion on fuel. -/
def ev : Nat → Ev
  | 0 => evZero
  | n+1 => ⟨auxBody (ev n), loopBody (ev n), tryBody (ev n), procOpBody (ev n), procGoBody (ev n)⟩

/-- Calculator.calculate on an already-tokenized source. -/
def calculate (n : Nat) (s : St) (stop : String) (prec : Nat) : Except Err Value × St :=
  wrap ((ev n).calcAux s stop prec)

/-- A stand-in recursive-evaluation callback: Operator.process receives
the evaluator as a parameter, so the step loop can be exercised against a
stub whose sub-evaluation returns a value while stopping at a token other
than the expected closing delimiter. -/
def stubEv : Ev :=
  ⟨fun s _ _ => (.ok [Value.vint 7], ")", s),
   (ev 0).calcLoop, (ev 0).tryOps, (ev 0).procOp, (ev 0).procGo⟩

/-- Is a character a shlex word character (alphanumerics and underscore)? -/
def isWordChar (c : Char) : Bool := c.isAlphanum || c = '_'

/-- Flush the accumulated word, if any. -/
def tokFlush (acc : List Char) : List String :=
  if acc.isEmpty then [] else [String.mk acc]

/-- Tokenizer state machine: words are maximal runs of word characters,
other printing characters are single-character tokens, a hash starts a
comment running to end of line. -/
def tokGo : Bool → List Char → List Char → List String
  | _, acc, [] => tokFlush acc
  | true, acc, c :: cs => if c = '\n' then tokGo false acc cs else tokGo true acc cs
  | false, acc, c :: cs =>
    if c = '#' then tokFlush acc ++ tokGo true [] cs
    else if c.isWhitespace then tokFlush acc ++ tokGo false [] cs
    else if isWordChar c then tokGo false (acc ++ [c]) cs
    else tokFlush acc ++ [String.mk [c]] ++ tokGo false [] cs

/-- Modelled from the spec: the external tokenizer collaborator (Python
shlex.shlex with default settings, as installed by the Calculator
constructor). Words are maximal runs of alphanumerics and underscores,
whitespace separates, any other character is a single-character token, and
a hash begins a comment that runs to the end of the line. Quoting and
escape handling are omitted; no claim input contains them. Exact for
single-line inputs. -/
def tokenize (s : String) : List String := tokGo false [] s.data

/-- Fresh token-source state for a token list. -/
def initSt (ts : List String) : St := ⟨ts, 0, 0, 0, 0⟩

/-- Ample fuel, sized to the input: the call depth of the evaluator is
bounded by a small multiple of the token count. -/
def evalFuel (ts : List String) : Nat := 8 * ts.length + 40

/-- A fixed ample fuel level for concrete runs. -/
def FUEL : Nat := 200

/-- The public entry point: Calculator()(expression) with the default
interpreter chain and operator set; one top-level evaluation with the
end-of-input stop sentinel and precedence floor 0. -/
def evaluate (e : String) : Except Err Value :=
  (calculate (evalFuel (tokenize e)) (initSt (tokenize e)) "" 0).1

/-- Final token-source state of a top-level evaluation (ghost counters
included). -/
def runSt (e : String) : St :=
  (calculate (evalFuel (tokenize e)) (initSt (tokenize e)) "" 0).2

/-- Is the outcome an error? -/
def isErrR (r : Except Err Value) : Bool :=
  match r with
  | .error _ => true
  | .ok _ => false

theorem wrap_snd (x : Except Err (List Value) × String × St) :
    (wrap x).2 = pushToken x.2.1 x.2.2 := by
  obtain ⟨r, tok, s⟩ := x
  rcases r with e | vals
  · rfl
  · rcases vals with _ | ⟨v, l⟩ <;> rfl

theorem pushToken_toks (t : String) (s : St) : (pushToken t s).toks = t :: s.toks := rfl

theorem pushToken_maxPend (t : String) (s : St) : (pushToken t s).maxPend = s.maxPend := rfl

theorem markPend_maxPend (k : Nat) (s : St) : (markPend k s).maxPend = max s.maxPend k := rfl

theorem getToken_maxPend (s : St) : (getToken s).2.maxPend = s.maxPend := by
  rcases s with ⟨_ | ⟨t, rest⟩, pb, mpb, mpd, rj⟩ <;> rfl

theorem bumpRej_maxPend (s : St) : (bumpRej s).maxPend = s.maxPend := rfl

theorem bumpRej_rejects (s : St) : (bumpRej s).rejects = s.rejects + 1 := rfl

theorem getToken_rejects (s : St) : (getToken s).2.rejects = s.rejects := by
  rcases s with ⟨_ | ⟨t, rest⟩, pb, mpb, mpd, rj⟩ <;> rfl

theorem pushToken_rejects (t : String) (s : St) : (pushToken t s).rejects = s.rejects := rfl

theorem markPend_rejects (k : Nat) (s : St) : (markPend k s).rejects = s.rejects := rfl

theorem wrap_rejects (x : Except Err (List Value) × String × St) :
    (wrap x).2.rejects = x.2.2.rejects := by
  rw [wrap_snd]; rfl

theorem getToken_maxPb (s : St) : (getToken s).2.maxPb = s.maxPb := by
  rcases s with ⟨_ | ⟨t, rest⟩, pb, mpb, mpd, rj⟩ <;> rfl

/-- Consistency of the ghost pushback counter: at most as many pushed-back
tokens as there are tokens at all. -/
def pbOK (s : St) : Prop := s.pb ≤ s.toks.length

theorem pbOK_get (s : St) (h : pbOK s) : pbOK (getToken s).2 := by
  rcases s with ⟨_ | ⟨t, rest⟩, pb, mpb, mpd, rj⟩
  · exact h
  · unfold pbOK at *
    simp only [getToken, List.length_cons] at *
    omega

theorem pbOK_push (t : String) (s : St) (h : pbOK s) : pbOK (pushToken t s) := by
  unfold pbOK at *
  simp only [pushToken, List.length_cons]
  omega

theorem pbOK_markPend (k : Nat) (s : St) (h : pbOK s) : pbOK (markPend k s) := h

theorem pbOK_bumpRej (s : St) (h : pbOK s) : pbOK (bumpRej s) := h

theorem getToken_pb_zero (s : St) (hok : pbOK s) (h : s.pb ≤ 1) : (getToken s).2.pb = 0 := by
  rcases s with ⟨_ | ⟨t, rest⟩, pb, mpb, mpd, rj⟩
  · unfold pbOK at hok
    simp only [List.length_nil, Nat.le_zero] at hok
    simpa [getToken] using hok
  · simp only [getToken]
    dsimp only at h ⊢
    omega

theorem wrap_maxPend (x : Except Err (List Value) × String × St) :
    (wrap x).2.maxPend = x.2.2.maxPend := by
  rw [wrap_snd]; rfl

theorem pushIf_maxPend (c : Bool) (t : String) (s : St) :
    (if c then pushToken t s else s).maxPend = s.maxPend := by
  cases c <;> rfl

theorem getIf_maxPend (c : Bool) (t : String) (s : St) :
    ((if c then getToken s else (t, s)) : String × St).2.maxPend = s.maxPend := by
  cases c
  · rfl
  · simp only [if_pos rfl]
    exact getToken_maxPend s

theorem pushIf_rejects (c : Bool) (t : String) (s : St) :
    (if c then pushToken t s else s).rejects = s.rejects := by
  cases c <;> rfl

theorem getIf_rejects (c : Bool) (t : String) (s : St) :
    ((if c then getToken s else (t, s)) : String × St).2.rejects = s.rejects := by
  cases c
  · rfl
  · simp only [if_pos rfl]
    exact getToken_rejects s

theorem pushToken_pb (t : String) (s : St) : (pushToken t s).pb = s.pb + 1 := rfl

theorem pushToken_maxPb (t : String) (s : St) :
    (pushToken t s).maxPb = max s.maxPb (s.pb + 1) := rfl

theorem markPend_pb (k : Nat) (s : St) : (markPend k s).pb = s.pb := rfl

theorem markPend_maxPb (k : Nat) (s : St) : (markPend k s).maxPb = s.maxPb := rfl

theorem pushIf_pb_le (c : Bool) (t : String) (s : St) (h : s.pb = 0) :
    (if c then pushToken t s else s).pb ≤ 1 := by
  cases c
  · show s.pb ≤ 1
    omega
  · show (pushToken t s).pb ≤ 1
    rw [pushToken_pb]
    omega

theorem pushIf_maxPb_le (c : Bool) (t : String) (s : St) (h : s.pb = 0) :
    (if c then pushToken t s else s).maxPb ≤ max s.maxPb 1 := by
  cases c
  · show s.maxPb ≤ max s.maxPb 1
    omega
  · show (pushToken t s).maxPb ≤ max s.maxPb 1
    rw [pushToken_maxPb, h]

theorem pbOK_pushIf (c : Bool) (t : String) (s : St) (h : pbOK s) :
    pbOK (if c then pushToken t s else s) := by
  cases c
  · exact h
  · exact pbOK_push t s h

theorem ev_succ_calcLoop (n : Nat) : (ev (n+1)).calcLoop = loopBody (ev n) := rfl

theorem ev_succ_tryOps (n : Nat) : (ev (n+1)).tryOps = tryBody (ev n) := rfl

theorem ev_succ_procOp (n : Nat) : (ev (n+1)).procOp = procOpBody (ev n) := rfl

theorem ev_succ_procGo (n : Nat) : (ev (n+1)).procGo = procGoBody (ev n) := rfl

theorem isErrR_ne_ok (r : Except Err Value) (v : Value) (h : isErrR r = true) :
    r ≠ .ok v := by
  rcases r with e | w
  · exact fun hc => by cases hc
  · simp [isErrR] at h

/-- Joint bound, by induction on fuel, for all evaluator components: the
ghost record of the largest pending-value count never exceeds
max (its incoming value) 1, and a successful while loop returns a pending
list of at most one value. -/
theorem pend_bound (n : Nat) :
    (∀ s stop prec,
      ((ev n).calcAux s stop prec).2.2.maxPend ≤ max s.maxPend 1 ∧
      ∀ vals, ((ev n).calcAux s stop prec).1 = .ok vals → vals.length ≤ 1) ∧
    (∀ vals token s stop prec, vals.length ≤ 1 →
      ((ev n).calcLoop vals token s stop prec).2.2.maxPend ≤ max s.maxPend 1 ∧
      ∀ out, ((ev n).calcLoop vals token s stop prec).1 = .ok out → out.length ≤ 1) ∧
    (∀ ops errs vals token s stop prec,
      ((ev n).tryOps ops errs vals token s stop prec).2.2.maxPend ≤ max s.maxPend 1) ∧
    (∀ op s stop vals, ((ev n).procOp op s stop vals).2.maxPend ≤ max s.maxPend 1) ∧
    (∀ op steps args s stop, ((ev n).procGo op steps args s stop).2.maxPend ≤ max s.maxPend 1) := by
  induction n with
  | zero =>
    refine ⟨fun s stop prec => ⟨Nat.le_max_left _ _, ?_⟩,
      fun vals token s stop prec h => ⟨Nat.le_max_left _ _, ?_⟩,
      fun ops errs vals token s stop prec => Nat.le_max_left _ _,
      fun op s stop vals => Nat.le_max_left _ _,
      fun op steps args s stop => Nat.le_max_left _ _⟩
    · intro vals hv
      simp [ev, evZero] at hv
    · intro out hout
      simp [ev, evZero] at hout
  | succ n IH =>
    obtain ⟨IHaux, IHloop, IHtry, IHproc, IHgo⟩ := IH
    refine ⟨?_, ?_, ?_, ?_, ?_⟩
    · -- calcAux
      intro s stop prec
      have h := IHloop [] (getToken s).1 (getToken s).2 stop prec (by simp)
      constructor
      · have h1 := h.1
        rw [getToken_maxPend] at h1
        exact h1
      · intro vals hv
        exact h.2 vals hv
    · -- calcLoop
      intro vals token s stop prec hlen
      rw [ev_succ_calcLoop]
      unfold loopBody
      constructor
      · split
        · simp only [markPend_maxPend]
          omega
        · split
          next v w s2 heq =>
            have ht := IHtry (iterOps token vals.length) [] vals token
              (markPend vals.length s) stop prec
            rw [heq] at ht
            dsimp only at ht
            rw [markPend_maxPend] at ht
            have hl := (IHloop [v] (getToken s2).1 (getToken s2).2 stop prec (by simp)).1
            rw [getToken_maxPend] at hl
            omega
          next tok2 s2 heq =>
            have ht := IHtry (iterOps token vals.length) [] vals token
              (markPend vals.length s) stop prec
            rw [heq] at ht
            dsimp only at ht
            rw [markPend_maxPend] at ht
            dsimp only
            omega
          next e tok2 s2 heq =>
            have ht := IHtry (iterOps token vals.length) [] vals token
              (markPend vals.length s) stop prec
            rw [heq] at ht
            dsimp only at ht
            rw [markPend_maxPend] at ht
            dsimp only
            omega
      · intro out hout
        split at hout
        · dsimp only at hout
          cases hout with
          | refl => exact hlen
        · split at hout
          next v w s2 heq =>
            exact (IHloop [v] (getToken s2).1 (getToken s2).2 stop prec (by simp)).2 out hout
          next tok2 s2 heq =>
            dsimp only at hout
            cases hout with
            | refl => exact hlen
          next e tok2 s2 heq =>
            dsimp only at hout
            cases hout
    · -- tryOps
      intro ops errs vals token s stop prec
      rw [ev_succ_tryOps]
      unfold tryBody
      split
      · exact Nat.le_max_left _ _
      next op rest =>
        split
        · exact Nat.le_max_left _ _
        · split
          next v s1 heq =>
            have hp := IHproc op (if op.token.isNone then pushToken token s else s) stop vals
            rw [heq] at hp
            dsimp only at hp
            rw [pushIf_maxPend] at hp
            exact hp
          next e s1 heq =>
            have hp := IHproc op (if op.token.isNone then pushToken token s else s) stop vals
            rw [heq] at hp
            dsimp only at hp
            rw [pushIf_maxPend] at hp
            have ht := IHtry rest (errs ++ [e]) vals
              (if op.token.isNone then getToken s1 else (token, s1)).1
              (bumpRej (if op.token.isNone then getToken s1 else (token, s1)).2) stop prec
            rw [bumpRej_maxPend, getIf_maxPend] at ht
            omega
    · -- procOp
      intro op s stop vals
      rw [ev_succ_procOp]
      unfold procOpBody
      split
      next args s1 heq =>
        have hg := IHgo op op.steps vals s stop
        rw [heq] at hg
        dsimp only at hg
        exact hg
      next e s1 heq =>
        have hg := IHgo op op.steps vals s stop
        rw [heq] at hg
        dsimp only at hg
        exact hg
    · -- procGo
      intro op steps args s stop
      rw [ev_succ_procGo]
      unfold procGoBody
      split
      · exact Nat.le_max_left _ _
      next step rest =>
        split
        next delim =>
          split
          next v s1 heq =>
            have ha := (IHaux s delim 0).1
            have hw : ((ev n).calcAux s delim 0).2.2.maxPend = s1.maxPend := by
              have h2 := congrArg (fun x => x.2.maxPend) heq
              dsimp only at h2
              rw [wrap_maxPend] at h2
              exact h2
            split
            · have hg := IHgo op rest (args ++ [v]) (getToken s1).2 stop
              rw [getToken_maxPend] at hg
              omega
            · have hpm : (pushToken (getToken s1).1 (getToken s1).2).maxPend = s1.maxPend := by
                rw [pushToken_maxPend, getToken_maxPend]
              dsimp only
              omega
          next e s1 heq =>
            have ha := (IHaux s delim 0).1
            have hw : ((ev n).calcAux s delim 0).2.2.maxPend = s1.maxPend := by
              have h2 := congrArg (fun x => x.2.maxPend) heq
              dsimp only at h2
              rw [wrap_maxPend] at h2
              exact h2
            dsimp only
            omega
        next f =>
          split
          next v heq2 =>
            have hg := IHgo op rest (args ++ [v]) (getToken s).2 stop
            rw [getToken_maxPend] at hg
            exact hg
          next heq2 =>
            have hpm : (pushToken (getToken s).1 (getToken s).2).maxPend = s.maxPend := by
              rw [pushToken_maxPend, getToken_maxPend]
            dsimp only
            omega
        next pr =>
          split
          next v s1 heq =>
            have ha := (IHaux s stop pr).1
            have hw : ((ev n).calcAux s stop pr).2.2.maxPend = s1.maxPend := by
              have h2 := congrArg (fun x => x.2.maxPend) heq
              dsimp only at h2
              rw [wrap_maxPend] at h2
              exact h2
            have hg := IHgo op rest (args ++ [v]) s1 stop
            omega
          next e s1 heq =>
            have ha := (IHaux s stop pr).1
            have hw : ((ev n).calcAux s stop pr).2.2.maxPend = s1.maxPend := by
              have h2 := congrArg (fun x => x.2.maxPend) heq
              dsimp only at h2
              rw [wrap_maxPend] at h2
              exact h2
            dsimp only
            omega

/-- The ghost rejection counter never decreases, in any component. -/
theorem rej_mono (n : Nat) :
    (∀ s stop prec, s.rejects ≤ ((ev n).calcAux s stop prec).2.2.rejects) ∧
    (∀ vals token s stop prec, s.rejects ≤ ((ev n).calcLoop vals token s stop prec).2.2.rejects) ∧
    (∀ ops errs vals token s stop prec,
      s.rejects ≤ ((ev n).tryOps ops errs vals token s stop prec).2.2.rejects) ∧
    (∀ op s stop vals, s.rejects ≤ ((ev n).procOp op s stop vals).2.rejects) ∧
    (∀ op steps args s stop, s.rejects ≤ ((ev n).procGo op steps args s stop).2.rejects) := by
  induction n with
  | zero =>
    exact ⟨fun s stop prec => Nat.le_succ _, fun vals token s stop prec => Nat.le_succ _,
      fun ops errs vals token s stop prec => Nat.le_succ _,
      fun op s stop vals => Nat.le_succ _, fun op steps args s stop => Nat.le_succ _⟩
  | succ n IH =>
    obtain ⟨IHaux, IHloop, IHtry, IHproc, IHgo⟩ := IH
    refine ⟨?_, ?_, ?_, ?_, ?_⟩
    · intro s stop prec
      have h := IHloop [] (getToken s).1 (getToken s).2 stop prec
      rw [getToken_rejects] at h
      exact h
    · intro vals token s stop prec
      rw [ev_succ_calcLoop]
      unfold loopBody
      split
      · dsimp only
        rw [markPend_rejects]
      · split
        next v w s2 heq =>
          have ht := IHtry (iterOps token vals.length) [] vals token
            (markPend vals.length s) stop prec
          rw [heq] at ht
          dsimp only at ht
          rw [markPend_rejects] at ht
          have hl := IHloop [v] (getToken s2).1 (getToken s2).2 stop prec
          rw [getToken_rejects] at hl
          omega
        next tok2 s2 heq =>
          have ht := IHtry (iterOps token vals.length) [] vals token
            (markPend vals.length s) stop prec
          rw [heq] at ht
          dsimp only at ht
          rw [markPend_rejects] at ht
          dsimp only
          omega
        next e tok2 s2 heq =>
          have ht := IHtry (iterOps token vals.length) [] vals token
            (markPend vals.length s) stop prec
          rw [heq] at ht
          dsimp only at ht
          rw [markPend_rejects] at ht
          dsimp only
          omega
    · intro ops errs vals token s stop prec
      rw [ev_succ_tryOps]
      unfold tryBody
      split
      · exact Nat.le_refl _
      next op rest =>
        split
        · exact Nat.le_refl _
        · split
          next v s1 heq =>
            have hp := IHproc op (if op.token.isNone then pushToken token s else s) stop vals
            rw [heq] at hp
            dsimp only at hp
            rw [pushIf_rejects] at hp
            exact hp
          next e s1 heq =>
            have hp := IHproc op (if op.token.isNone then pushToken token s else s) stop vals
            rw [heq] at hp
            dsimp only at hp
            rw [pushIf_rejects] at hp
            have ht := IHtry rest (errs ++ [e]) vals
              (if op.token.isNone then getToken s1 else (token, s1)).1
              (bumpRej (if op.token.isNone then getToken s1 else (token, s1)).2) stop prec
            rw [bumpRej_rejects, getIf_rejects] at ht
            omega
    · intro op s stop vals
      rw [ev_succ_procOp]
      unfold procOpBody
      split
      next args s1 heq =>
        have hg := IHgo op op.steps vals s stop
        rw [heq] at hg
        dsimp only at hg
        exact hg
      next e s1 heq =>
        have hg := IHgo op op.steps vals s stop
        rw [heq] at hg
        dsimp only at hg
        exact hg
    · intro op steps args s stop
      rw [ev_succ_procGo]
      unfold procGoBody
      split
      · exact Nat.le_refl _
      next step rest =>
        split
        next delim =>
          split
          next v s1 heq =>
            have ha := IHaux s delim 0
            have h2 : ((ev n).calcAux s delim 0).2.2.rejects = s1.rejects := by
              have h3 := congrArg (fun x => x.2.rejects) heq
              dsimp only at h3
              rw [wrap_rejects] at h3
              exact h3
            split
            · have hg := IHgo op rest (args ++ [v]) (getToken s1).2 stop
              rw [getToken_rejects] at hg
              omega
            · have hpm : (pushToken (getToken s1).1 (getToken s1).2).rejects = s1.rejects := by
                rw [pushToken_rejects, getToken_rejects]
              dsimp only
              omega
          next e s1 heq =>
            have ha := IHaux s delim 0
            have h2 : ((ev n).calcAux s delim 0).2.2.rejects = s1.rejects := by
              have h3 := congrArg (fun x => x.2.rejects) heq
              dsimp only at h3
              rw [wrap_rejects] at h3
              exact h3
            dsimp only
            omega
        next f =>
          split
          next v heq2 =>
            have hg := IHgo op rest (args ++ [v]) (getToken s).2 stop
            rw [getToken_rejects] at hg
            exact hg
          next heq2 =>
            have hpm : (pushToken (getToken s).1 (getToken s).2).rejects = s.rejects := by
              rw [pushToken_rejects, getToken_rejects]
            dsimp only
            omega
        next pr =>
          split
          next v s1 heq =>
            have ha := IHaux s stop pr
            have h2 : ((ev n).calcAux s stop pr).2.2.rejects = s1.rejects := by
              have h3 := congrArg (fun x => x.2.rejects) heq
              dsimp only at h3
              rw [wrap_rejects] at h3
              exact h3
            have hg := IHgo op rest (args ++ [v]) s1 stop
            omega
          next e s1 heq =>
            have ha := IHaux s stop pr
            have h2 : ((ev n).calcAux s stop pr).2.2.rejects = s1.rejects := by
              have h3 := congrArg (fun x => x.2.rejects) heq
              dsimp only at h3
              rw [wrap_rejects] at h3
              exact h3
            dsimp only
            omega

/-- In a run that rejects no candidate and exhausts no fuel (the ghost
rejection counter is preserved), every push of a token happens while no
pushed-back token is pending, so the ghost maximal pushback depth never
exceeds max of its incoming value and 1; the current depth is 0 at every
loop exit and at most 1 after an operator application. -/
theorem pb_bound (n : Nat) :
    (∀ s stop prec, s.pb ≤ 1 → pbOK s →
      (((ev n).calcAux s stop prec).2.2.rejects = s.rejects →
        ((ev n).calcAux s stop prec).2.2.maxPb ≤ max s.maxPb 1 ∧
        ((ev n).calcAux s stop prec).2.2.pb = 0 ∧
        pbOK ((ev n).calcAux s stop prec).2.2)) ∧
    (∀ vals token s stop prec, s.pb = 0 → pbOK s →
      (((ev n).calcLoop vals token s stop prec).2.2.rejects = s.rejects →
        ((ev n).calcLoop vals token s stop prec).2.2.maxPb ≤ max s.maxPb 1 ∧
        ((ev n).calcLoop vals token s stop prec).2.2.pb = 0 ∧
        pbOK ((ev n).calcLoop vals token s stop prec).2.2)) ∧
    (∀ ops errs vals token s stop prec, s.pb = 0 → pbOK s →
      (((ev n).tryOps ops errs vals token s stop prec).2.2.rejects = s.rejects →
        ((ev n).tryOps ops errs vals token s stop prec).2.2.maxPb ≤ max s.maxPb 1 ∧
        pbOK ((ev n).tryOps ops errs vals token s stop prec).2.2 ∧
        (∀ v, ((ev n).tryOps ops errs vals token s stop prec).1 = .succ v →
          ((ev n).tryOps ops errs vals token s stop prec).2.2.pb ≤ 1) ∧
        (((ev n).tryOps ops errs vals token s stop prec).1 = .outclassed →
          ((ev n).tryOps ops errs vals token s stop prec).2.2.pb = 0) ∧
        (∀ e, ((ev n).tryOps ops errs vals token s stop prec).1 = .failed e →
          ((ev n).tryOps ops errs vals token s stop prec).2.2.pb = 0))) ∧
    (∀ op s stop vals, s.pb ≤ 1 → pbOK s →
      (((ev n).procOp op s stop vals).2.rejects = s.rejects →
        ((ev n).procOp op s stop vals).2.maxPb ≤ max s.maxPb 1 ∧
        ((ev n).procOp op s stop vals).2.pb ≤ 1 ∧
        pbOK ((ev n).procOp op s stop vals).2)) ∧
    (∀ op steps args s stop, s.pb ≤ 1 → pbOK s →
      (((ev n).procGo op steps args s stop).2.rejects = s.rejects →
        ((ev n).procGo op steps args s stop).2.maxPb ≤ max s.maxPb 1 ∧
        ((ev n).procGo op steps args s stop).2.pb ≤ 1 ∧
        pbOK ((ev n).procGo op steps args s stop).2)) := by
  induction n with
  | zero =>
    refine ⟨fun s stop prec h1 h2 hr => absurd hr (by simp [ev, evZero, bumpRej]),
      fun vals token s stop prec h1 h2 hr => absurd hr (by simp [ev, evZero, bumpRej]),
      fun ops errs vals token s stop prec h1 h2 hr => absurd hr (by simp [ev, evZero, bumpRej]),
      fun op s stop vals h1 h2 hr => absurd hr (by simp [ev, evZero, bumpRej]),
      fun op steps args s stop h1 h2 hr => absurd hr (by simp [ev, evZero, bumpRej])⟩
  | succ n IH =>
    obtain ⟨IHaux, IHloop, IHtry, IHproc, IHgo⟩ := IH
    refine ⟨?_, ?_, ?_, ?_, ?_⟩
    · -- calcAux
      intro s stop prec hpb hok hr
      have h := IHloop [] (getToken s).1 (getToken s).2 stop prec
        (getToken_pb_zero s hok hpb) (pbOK_get s hok)
        (by rw [getToken_rejects]; exact hr)
      rw [getToken_maxPb] at h
      exact h
    · -- calcLoop
      intro vals token s stop prec hpb hok
      rw [ev_succ_calcLoop]
      unfold loopBody
      split
      · intro hr
        refine ⟨?_, ?_, ?_⟩
        · dsimp only
          rw [markPend_maxPb]
          omega
        · dsimp only
          rw [markPend_pb]
          exact hpb
        · exact pbOK_markPend _ _ hok
      · split
        next v w s2 heq =>
          intro hr
          have m1 := (rej_mono n).2.2.1 (iterOps token vals.length) [] vals token
            (markPend vals.length s) stop prec
          rw [heq] at m1
          dsimp only at m1
          rw [markPend_rejects] at m1
          have m2 := (rej_mono n).2.1 [v] (getToken s2).1 (getToken s2).2 stop prec
          rw [getToken_rejects] at m2
          have ht := IHtry (iterOps token vals.length) [] vals token
            (markPend vals.length s) stop prec
            (by rw [markPend_pb]; exact hpb) (pbOK_markPend _ _ hok)
            (by rw [heq]; dsimp only; rw [markPend_rejects]; omega)
          rw [heq] at ht
          dsimp only at ht
          rw [markPend_maxPb] at ht
          obtain ⟨ht1, ht2, ht3, _, _⟩ := ht
          have hs2pb : s2.pb ≤ 1 := ht3 v rfl
          have hl := IHloop [v] (getToken s2).1 (getToken s2).2 stop prec
            (getToken_pb_zero s2 ht2 hs2pb) (pbOK_get s2 ht2)
            (by rw [getToken_rejects]; omega)
          rw [getToken_maxPb] at hl
          obtain ⟨hl1, hl2, hl3⟩ := hl
          exact ⟨by omega, hl2, hl3⟩
        next tok2 s2 heq =>
          intro hr
          dsimp only at hr
          have ht := IHtry (iterOps token vals.length) [] vals token
            (markPend vals.length s) stop prec
            (by rw [markPend_pb]; exact hpb) (pbOK_markPend _ _ hok)
            (by rw [heq]; dsimp only; rw [markPend_rejects]; exact hr)
          rw [heq] at ht
          dsimp only at ht
          rw [markPend_maxPb] at ht
          obtain ⟨ht1, ht2, _, ht4, _⟩ := ht
          dsimp only
          exact ⟨by omega, ht4 rfl, ht2⟩
        next e tok2 s2 heq =>
          intro hr
          dsimp only at hr
          have ht := IHtry (iterOps token vals.length) [] vals token
            (markPend vals.length s) stop prec
            (by rw [markPend_pb]; exact hpb) (pbOK_markPend _ _ hok)
            (by rw [heq]; dsimp only; rw [markPend_rejects]; exact hr)
          rw [heq] at ht
          dsimp only at ht
          rw [markPend_maxPb] at ht
          obtain ⟨ht1, ht2, _, _, ht5⟩ := ht
          dsimp only
          exact ⟨by omega, ht5 e rfl, ht2⟩
    · -- tryOps
      intro ops errs vals token s stop prec hpb hok
      rw [ev_succ_tryOps]
      unfold tryBody
      split
      · intro hr
        dsimp only
        refine ⟨by omega, hok, ?_, ?_, ?_⟩
        · intro v hv
          cases hv
        · intro hv
          exact hpb
        · intro e hv
          exact hpb
      next op rest =>
        split
        · intro hr
          dsimp only
          refine ⟨by omega, hok, ?_, ?_, ?_⟩
          · intro v hv
            cases hv
          · intro hv
            exact hpb
          · intro e hv
            exact hpb
        · split
          next v s1 heq =>
            intro hr
            dsimp only at hr
            have hp := IHproc op (if op.token.isNone then pushToken token s else s) stop vals
              (pushIf_pb_le _ _ _ hpb) (pbOK_pushIf _ _ _ hok)
              (by rw [heq]; dsimp only; rw [pushIf_rejects]; exact hr)
            rw [heq] at hp
            dsimp only at hp
            obtain ⟨hp1, hp2, hp3⟩ := hp
            have hmb := pushIf_maxPb_le op.token.isNone token s hpb
            dsimp only
            refine ⟨by omega, hp3, ?_, ?_, ?_⟩
            · intro v2 hv
              exact hp2
            · intro hv
              cases hv
            · intro e hv
              cases hv
          next e s1 heq =>
            intro hr
            have m1 := (rej_mono n).2.2.2.1 op
              (if op.token.isNone then pushToken token s else s) stop vals
            rw [heq] at m1
            dsimp only at m1
            rw [pushIf_rejects] at m1
            have m2 := (rej_mono n).2.2.1 rest (errs ++ [e]) vals
              (if op.token.isNone then getToken s1 else (token, s1)).1
              (bumpRej (if op.token.isNone then getToken s1 else (token, s1)).2) stop prec
            rw [bumpRej_rejects, getIf_rejects] at m2
            exact absurd hr (by omega)
    · -- procOp
      intro op s stop vals hpb hok
      rw [ev_succ_procOp]
      unfold procOpBody
      split
      next args s1 heq =>
        intro hr
        dsimp only at hr
        have hg := IHgo op op.steps vals s stop hpb hok
          (by rw [heq]; dsimp only; exact hr)
        rw [heq] at hg
        dsimp only at hg
        exact hg
      next e s1 heq =>
        intro hr
        dsimp only at hr
        have hg := IHgo op op.steps vals s stop hpb hok
          (by rw [heq]; dsimp only; exact hr)
        rw [heq] at hg
        dsimp only at hg
        exact hg
    · -- procGo
      intro op steps args s stop hpb hok
      rw [ev_succ_procGo]
      unfold procGoBody
      split
      · intro hr
        dsimp only
        exact ⟨by omega, hpb, hok⟩
      next step rest =>
        split
        next delim =>
          split
          next v s1 heq =>
            have hs1 : s1 = pushToken ((ev n).calcAux s delim 0).2.1
                ((ev n).calcAux s delim 0).2.2 := by
              have h2 := congrArg Prod.snd heq
              rw [wrap_snd] at h2
              exact h2.symm
            subst hs1
            split
            · intro hr
              have mA := (rej_mono n).1 s delim 0
              have mRec := (rej_mono n).2.2.2.2 op rest (args ++ [v])
                (getToken (pushToken ((ev n).calcAux s delim 0).2.1
                  ((ev n).calcAux s delim 0).2.2)).2 stop
              rw [getToken_rejects, pushToken_rejects] at mRec
              have hA := IHaux s delim 0 hpb hok (by omega)
              obtain ⟨hA1, hA2, hA3⟩ := hA
              have hpok1 : pbOK (pushToken ((ev n).calcAux s delim 0).2.1
                  ((ev n).calcAux s delim 0).2.2) := pbOK_push _ _ hA3
              have hpb1 : (pushToken ((ev n).calcAux s delim 0).2.1
                  ((ev n).calcAux s delim 0).2.2).pb ≤ 1 := by
                rw [pushToken_pb, hA2]
              have hg := IHgo op rest (args ++ [v])
                (getToken (pushToken ((ev n).calcAux s delim 0).2.1
                  ((ev n).calcAux s delim 0).2.2)).2 stop
                (by rw [getToken_pb_zero _ hpok1 hpb1]; omega) (pbOK_get _ hpok1)
                (by rw [getToken_rejects, pushToken_rejects]; omega)
              rw [getToken_maxPb, pushToken_maxPb, hA2] at hg
              obtain ⟨hg1, hg2, hg3⟩ := hg
              exact ⟨by omega, hg2, hg3⟩
            · intro hr
              have mA := (rej_mono n).1 s delim 0
              have hA := IHaux s delim 0 hpb hok (by
                dsimp only at hr
                rw [pushToken_rejects, getToken_rejects, pushToken_rejects] at hr
                exact hr)
              obtain ⟨hA1, hA2, hA3⟩ := hA
              have hpok1 : pbOK (pushToken ((ev n).calcAux s delim 0).2.1
                  ((ev n).calcAux s delim 0).2.2) := pbOK_push _ _ hA3
              have hgz := getToken_pb_zero _ hpok1 (by rw [pushToken_pb, hA2])
              refine ⟨?_, ?_, ?_⟩
              · dsimp only
                rw [pushToken_maxPb, hgz, getToken_maxPb, pushToken_maxPb, hA2]
                omega
              · dsimp only
                rw [pushToken_pb, hgz]
              · exact pbOK_push _ _ (pbOK_get _ hpok1)
          next e s1 heq =>
            intro hr
            have hs1 : s1 = pushToken ((ev n).calcAux s delim 0).2.1
                ((ev n).calcAux s delim 0).2.2 := by
              have h2 := congrArg Prod.snd heq
              rw [wrap_snd] at h2
              exact h2.symm
            subst hs1
            dsimp only at hr
            rw [pushToken_rejects] at hr
            have hA := IHaux s delim 0 hpb hok hr
            obtain ⟨hA1, hA2, hA3⟩ := hA
            refine ⟨?_, ?_, ?_⟩
            · dsimp only
              rw [pushToken_maxPb, hA2]
              omega
            · dsimp only
              rw [pushToken_pb, hA2]
            · exact pbOK_push _ _ hA3
        next f =>
          split
          next v heq2 =>
            intro hr
            have hg := IHgo op rest (args ++ [v]) (getToken s).2 stop
              (by rw [getToken_pb_zero s hok hpb]; omega) (pbOK_get s hok)
              (by rw [getToken_rejects]; exact hr)
            rw [getToken_maxPb] at hg
            exact hg
          next heq2 =>
            intro hr
            have hgz := getToken_pb_zero s hok hpb
            refine ⟨?_, ?_, ?_⟩
            · dsimp only
              simp only [pushToken_maxPb, hgz, getToken_maxPb]
              omega
            · dsimp only
              simp only [pushToken_pb, hgz]
              omega
            · exact pbOK_push _ _ (pbOK_get s hok)
        next pr =>
          split
          next v s1 heq =>
            intro hr
            have hs1 : s1 = pushToken ((ev n).calcAux s stop pr).2.1
                ((ev n).calcAux s stop pr).2.2 := by
              have h2 := congrArg Prod.snd heq
              rw [wrap_snd] at h2
              exact h2.symm
            subst hs1
            have mA := (rej_mono n).1 s stop pr
            have mRec := (rej_mono n).2.2.2.2 op rest (args ++ [v])
              (pushToken ((ev n).calcAux s stop pr).2.1
                ((ev n).calcAux s stop pr).2.2) stop
            rw [pushToken_rejects] at mRec
            have hA := IHaux s stop pr hpb hok (by omega)
            obtain ⟨hA1, hA2, hA3⟩ := hA
            have hg := IHgo op rest (args ++ [v])
              (pushToken ((ev n).calcAux s stop pr).2.1
                ((ev n).calcAux s stop pr).2.2) stop
              (by rw [pushToken_pb, hA2]) (pbOK_push _ _ hA3)
              (by rw [pushToken_rejects]; omega)
            rw [pushToken_maxPb, hA2] at hg
            obtain ⟨hg1, hg2, hg3⟩ := hg
            exact ⟨by omega, hg2, hg3⟩
          next e s1 heq =>
            intro hr
            have hs1 : s1 = pushToken ((ev n).calcAux s stop pr).2.1
                ((ev n).calcAux s stop pr).2.2 := by
              have h2 := congrArg Prod.snd heq
              rw [wrap_snd] at h2
              exact h2.symm
            subst hs1
            dsimp only at hr
            rw [pushToken_rejects] at hr
            have hA := IHaux s stop pr hpb hok hr
            obtain ⟨hA1, hA2, hA3⟩ := hA
            refine ⟨?_, ?_, ?_⟩
            · dsimp only
              rw [pushToken_maxPb, hA2]
              omega
            · dsimp only
              rw [pushToken_pb, hA2]
            · exact pbOK_push _ _ hA3

/-! Tokenizer facts used by the grouping claim: the end-of-input sentinel
is never produced as a token, and appending a closing parenthesis to a
hash-free text appends one closing-parenthesis token. -/

theorem iterOps_sentinel0 : iterOps "" 0 = [interpOper intInterp, interpOper floatInterp] := rfl

theorem iterOps_close0 : iterOps ")" 0 = [interpOper intInterp, interpOper floatInterp] := rfl

theorem iterOps_sentinel1 : iterOps "" 1 = [opAdj] := rfl

theorem iterOps_close1 : iterOps ")" 1 = [opAdj] := rfl

theorem iterOps_paren0 :
    iterOps "(" 0 = [opParen, interpOper intInterp, interpOper floatInterp] := rfl

/-! Dead-token lemmas. At the boundary between an expression and its
wrapping parenthesis the plain run holds the end-of-input sentinel where
the wrapped run holds the closing parenthesis. Whenever an evaluator
consumes such a token as an operand, every candidate fails and the ghost
rejection counter is bumped, so these configurations never occur in a
rejection-free successful run. -/

/-- C1: with the default interpreter chain and operator set, the public
entry point evaluate returns 50 on the expression text 2+3*4^2 and 62 on
2^3*4+5*6. -/
theorem c1_standard_precedence :
    evaluate "2+3*4^2" = .ok (.vint 50) ∧ evaluate "2^3*4+5*6" = .ok (.vint 62) :=
  ⟨rfl, rfl⟩

/-- C2: exponentiation is right-associative: evaluate of 2^2^2 returns 16;
the hat operator is the sole concrete candidate for a hat token with one
pending value, its trump is 2310, its continuation step recursively
evaluates the right operand at the strictly looser floor 2300, and at that
floor a following hat candidate is not outclassed (the loop guard
trump < floor is false for it). -/
theorem c2_pow_right_assoc :
    evaluate "2^2^2" = .ok (.vint 16) ∧
    (iterOps "^" 1).head? = some opPow ∧
    opPow.trump = some 2310 ∧
    opPow.steps = [Step.sprec 2300] ∧
    trumpLtNat opPow.trump 2300 = false ∧
    2300 < 2310 :=
  ⟨rfl, rfl, rfl, rfl, rfl, by omega⟩

/-- C4: the expression text 2(5 has an opening parenthesis with no
matching closing delimiter, and the top-level evaluate fails on it rather
than returning a numeric result (the module doctest instead expects the
value 62 there, contradicting the evaluator's behavior). -/
theorem c4_unmatched_group_fails : isErrR (evaluate "2(5") = true := rfl

/-- C5: the adjacency action applies the left value to the right one when
the left value is callable (and the call succeeds), otherwise multiplies
the two values; the adjacency operator carries the wildcard identity and
this action, and evaluate of 3(5) returns 15. -/
theorem c5_adjacency :
    evaluate "3(5)" = .ok (.vint 15) ∧
    (∀ (f : Int → Int) (r : Value) (i : Int),
      intView r = some i → apply_or_mul (.vfn f) r = .ok (.vint (f i))) ∧
    (∀ l r : Value, l.isFn = false → apply_or_mul l r = mulV l r) ∧
    opAdj.token = none ∧
    opAdj.action = binAct apply_or_mul := by
  refine ⟨rfl, ?_, ?_, rfl, rfl⟩
  · intro f r i h
    unfold apply_or_mul tryCall
    rw [h]
  · intro l r h
    cases l with
    | vint n => rfl
    | vnum q => rfl
    | vbool b => rfl
    | vfn f => simp [Value.isFn] at h

/-- C5 witness: the two dispatch clauses at concrete inputs. -/
theorem c5_adjacency_witness :
    apply_or_mul (.vfn (fun i => i + 1)) (.vint 4) = .ok (.vint 5) ∧
    apply_or_mul (.vint 3) (.vint 5) = mulV (.vint 3) (.vint 5) :=
  ⟨c5_adjacency.2.1 (fun i => i + 1) (.vint 4) 4 rfl,
   c5_adjacency.2.2.1 (.vint 3) (.vint 5) rfl⟩

/-- C6 counterexample: for the raw token plus with one pending value, the
candidate sequence has the trumps 2090 (the concrete additive operator)
followed by 2390 (the wildcard adjacency operator), so the trumps are not
non-increasing across the concatenation of the two buckets. -/
theorem c6_counterexample :
    (iterOps "+" 1).map Oper.trump = [some 2090, some 2390] ∧
    chainTrumpB (iterOps "+" 1) = false :=
  ⟨rfl, rfl⟩

/-- C6 amended: the candidate sequence is the concrete-identity bucket
followed by the wildcard bucket, and the trumps are non-increasing within
each bucket (but not necessarily across the concatenation). -/
theorem c6_table_order_amended :
    (∀ (t : String) (n : Nat), iterOps t n = bucket (some t) n ++ bucket none n) ∧
    (∀ (tok : Option String) (n : Nat), List.Sorted trumpRel (bucket tok n)) :=
  ⟨fun _ _ => rfl, fun tok n => List.sorted_insertionSort trumpRel _⟩

/-- C7: throughout every call of calculate the pending-value accumulator
holds at most one value (the ghost record of the largest pending count
never exceeds max of its incoming value and 1, and a successful loop exits
with at most one pending value); on exit the final unconsumed token is
pushed back onto the source, the single pending value is returned, and the
call fails when no value is pending. -/
theorem c7_pending_invariant :
    ∀ (n : Nat) (s : St) (stop : String) (prec : Nat),
      ((ev n).calcAux s stop prec).2.2.maxPend ≤ max s.maxPend 1 ∧
      (∀ vals, ((ev n).calcAux s stop prec).1 = .ok vals → vals.length ≤ 1) ∧
      (calculate n s stop prec).2 =
        pushToken ((ev n).calcAux s stop prec).2.1 ((ev n).calcAux s stop prec).2.2 ∧
      (((ev n).calcAux s stop prec).1 = .ok [] →
        (calculate n s stop prec).1 = .error (.valueErr "No operator available")) ∧
      (∀ (v : Value) (l : List Value), ((ev n).calcAux s stop prec).1 = .ok (v :: l) →
        (calculate n s stop prec).1 = .ok v) := by
  intro n s stop prec
  refine ⟨((pend_bound n).1 s stop prec).1, ((pend_bound n).1 s stop prec).2,
    wrap_snd _, ?_, ?_⟩
  · intro h
    unfold calculate
    rcases haux : (ev n).calcAux s stop prec with ⟨r, tok, st2⟩
    rw [haux] at h
    dsimp only at h
    subst h
    rfl
  · intro v l h
    unfold calculate
    rcases haux : (ev n).calcAux s stop prec with ⟨r, tok, st2⟩
    rw [haux] at h
    dsimp only at h
    subst h
    rfl

/-- C7 witness: the invariant applied to the concrete run on the token 2. -/
theorem c7_pending_invariant_witness :
    (calculate FUEL (initSt (tokenize "2")) "" 0).1 = .ok (.vint 2) ∧
    ((ev FUEL).calcAux (initSt (tokenize "2")) "" 0).2.2.maxPend ≤
      max (initSt (tokenize "2")).maxPend 1 :=
  ⟨(c7_pending_invariant FUEL (initSt (tokenize "2")) "" 0).2.2.2.2 (.vint 2) [] rfl,
   (c7_pending_invariant FUEL (initSt (tokenize "2")) "" 0).1⟩

/-- C8 counterexample: rejecting a candidate does not always restore the
tokens read during the attempt. Attempting the assignment operator on the
source holding the single token 3 (with one pending value 2, the state
reached in evaluating 2=3) is rejected, yet afterwards the source holds
the end-of-input sentinel pushed back by the nested evaluation instead of
the token 3 it held before the attempt. -/
theorem c8_counterexample :
    isErrR ((ev FUEL).procOp opAssign (initSt ["3"]) "" [.vint 2]).1 = true ∧
    (initSt ["3"]).toks = ["3"] ∧
    ((ev FUEL).procOp opAssign (initSt ["3"]) "" [.vint 2]).2.toks = [""] ∧
    ((([""] : List String) == ["3"]) = false) :=
  ⟨rfl, rfl, rfl, rfl⟩

/-- C8 amended: rejection restores only the most recently read token: an
interpreter step pushes back the one token it consumed (leaving the source
exactly as before the step), a delimiter step whose sub-evaluation
succeeded but whose next token is not the expected closing delimiter
pushes that unexpected token back before raising the mismatch, and a
failed nested evaluation pushes back only the last token it read; tokens
consumed earlier during a failed attempt are not restored. -/
theorem c8_restore_amended :
    (∀ (n : Nat) (f : String → Option Value) (t : String) (rest : List String)
      (pb mpb mpd rj : Nat) (stop : String) (vals : List Value),
      f t = none →
      ((ev (n+2)).procOp (interpOper f) ⟨t :: rest, pb, mpb, mpd, rj⟩ stop vals).1 =
        .error (.interpFail t) ∧
      ((ev (n+2)).procOp (interpOper f) ⟨t :: rest, pb, mpb, mpd, rj⟩ stop vals).2.toks =
        t :: rest) ∧
    (∀ (F : Ev) (op : Oper) (delim : String) (rest : List Step) (args : List Value)
      (s s1 : St) (stop : String) (v : Value),
      wrap (F.calcAux s delim 0) = (.ok v, s1) →
      (getToken s1).1 ≠ delim →
      (procGoBody F op (.sgroup delim :: rest) args s stop).1 =
        .error (.mismatch op.token (getToken s1).1 delim) ∧
      (procGoBody F op (.sgroup delim :: rest) args s stop).2.toks =
        (getToken s1).1 :: (getToken s1).2.toks) ∧
    (∀ (n : Nat) (s : St) (stop : String) (prec : Nat),
      (calculate n s stop prec).2.toks =
        ((ev n).calcAux s stop prec).2.1 :: ((ev n).calcAux s stop prec).2.2.toks) := by
  refine ⟨?_, ?_, ?_⟩
  · intro n f t rest pb mpb mpd rj stop vals hf
    rw [ev_succ_procOp]
    unfold procOpBody
    rw [ev_succ_procGo]
    unfold procGoBody
    unfold interpOper
    dsimp only [getToken]
    rw [hf]
    exact ⟨rfl, rfl⟩
  · intro F op delim rest args s s1 stop v hw hne
    unfold procGoBody
    dsimp only
    rw [hw]
    dsimp only
    rw [if_neg hne]
    exact ⟨rfl, pushToken_toks _ _⟩
  · intro n s stop prec
    unfold calculate
    rw [wrap_snd]
    rfl

/-- C8 amended witness: the interpreter-step clause at the concrete token
plus, which the int interpreter rejects, and the delimiter-mismatch clause
for the index operator against a stub sub-evaluation that stops at a
parenthesis instead of the expected bracket. -/
theorem c8_restore_amended_witness :
    (((ev 2).procOp (interpOper intInterp) ⟨["+"], 0, 0, 0, 0⟩ "" []).1 =
      .error (.interpFail "+") ∧
    ((ev 2).procOp (interpOper intInterp) ⟨["+"], 0, 0, 0, 0⟩ "" []).2.toks = ["+"]) ∧
    ((procGoBody stubEv opIndex [.sgroup "]"] [] (initSt []) "").1 =
      .error (.mismatch opIndex.token ")" "]") ∧
    (procGoBody stubEv opIndex [.sgroup "]"] [] (initSt []) "").2.toks = [")"]) :=
  ⟨c8_restore_amended.1 0 intInterp "+" [] 0 0 0 0 "" [] rfl,
   c8_restore_amended.2.1 stubEv opIndex "]" [] [] (initSt [])
     (pushToken ")" (initSt [])) "" (.vint 7) rfl (by decide)⟩

/-- C9 counterexample: the pushback depth does exceed 1: during the
(failing) evaluation of the expression text 2+, the ghost record of the
maximal pushback depth reaches 2 (the adjacency candidate pushes the
trigger token back on top of the sentinel pushed back by the failed
additive candidate's nested evaluation). -/
theorem c9_counterexample :
    (runSt "2+").maxPb = 2 ∧ 1 < (runSt "2+").maxPb :=
  ⟨rfl, by rw [(by rfl : (runSt "2+").maxPb = 2)]; omega⟩

/-- C9 amended: on every run that rejects no operator candidate (the ghost
rejection counter is preserved; all documented successful evaluations are
such runs) the pushback depth never exceeds 1; when a candidate is
rejected the depth can reach 2, as on the expression text 2+. -/
theorem c9_pushback_amended :
    (∀ (n : Nat) (s : St) (stop : String) (prec : Nat),
      s.pb = 0 → pbOK s →
      (calculate n s stop prec).2.rejects = s.rejects →
      (calculate n s stop prec).2.maxPb ≤ max s.maxPb 1) ∧
    (runSt "2+3*4^2").rejects = 0 ∧
    (runSt "3(5)").rejects = 0 ∧
    (runSt "(((1))+(2))").rejects = 0 ∧
    (runSt "2+3*4^2").maxPb = 1 ∧
    (runSt "3(5)").maxPb = 1 ∧
    (runSt "(((1))+(2))").maxPb = 1 ∧
    (runSt "2+").maxPb = 2 := by
  refine ⟨?_, rfl, rfl, rfl, rfl, rfl, rfl, rfl⟩
  intro n s stop prec hpb hok hr
  unfold calculate at hr ⊢
  rw [wrap_snd] at hr ⊢
  rw [pushToken_rejects] at hr
  obtain ⟨h1, h2, h3⟩ := (pb_bound n).1 s stop prec (by omega) hok hr
  rw [pushToken_maxPb, h2]
  omega

/-- C9 amended witness: the rejection-free bound applied to the concrete
run on the expression text 3(5). -/
theorem c9_pushback_amended_witness :
    (calculate FUEL (initSt (tokenize "3(5)")) "" 0).2.maxPb ≤
      max (initSt (tokenize "3(5)")).maxPb 1 :=
  c9_pushback_amended.1 FUEL (initSt (tokenize "3(5)")) "" 0 rfl (Nat.zero_le _) rfl

/-- C10: when a calculate activation fails, the state it leaves behind has
the last token that activation read pushed back on top of the remaining
tokens (the push runs unconditionally, mirroring the finally clause), so
failure never discards the final token read. -/
theorem c10_finally_pushback :
    ∀ (n : Nat) (s : St) (stop : String) (prec : Nat),
      isErrR (calculate n s stop prec).1 = true →
      (calculate n s stop prec).2.toks =
        ((ev n).calcAux s stop prec).2.1 :: ((ev n).calcAux s stop prec).2.2.toks := by
  intro n s stop prec h
  unfold calculate
  rw [wrap_snd]
  rfl

/-- C10 witness: the failing run on the expression text 2+. -/
theorem c10_finally_pushback_witness :
    isErrR (calculate FUEL (initSt (tokenize "2+")) "" 0).1 = true ∧
    (calculate FUEL (initSt (tokenize "2+")) "" 0).2.toks =
      ((ev FUEL).calcAux (initSt (tokenize "2+")) "" 0).2.1 ::
        ((ev FUEL).calcAux (initSt (tokenize "2+")) "" 0).2.2.toks :=
  ⟨rfl, c10_finally_pushback FUEL (initSt (tokenize "2+")) "" 0 rfl⟩

end Calc
